import Mathlib

/-!
Verification of the translation fallback orchestrator of `src/script.js`
(class `TranslationService`).

The embedding is a shallow one:
* machine effects (network calls) are modelled by giving every provider a
  pure `translator` function returning `Except String TranslationResult`
  (`Except.error msg` models the adapter throwing an `Error` with message
  `msg`, as every adapter in the source does);
* `async`/`await` sequencing becomes ordinary sequential state passing on
  a `ServiceState` record holding the three mutable fields of the class
  (`services`, `failedServices`, `logs`);
* the JS `Set` `failedServices` is modelled as a duplicate-free list with
  the insertion-order semantics of a JS `Set` (`setAdd` / `setDel`);
* log records keep the `level`, `service` and `message` fields of the
  source's log entries; the `timestamp` and `details` fields (wall-clock
  time, durations) are not representable in a pure embedding and are
  dropped — no claim depends on them;
* the regular expression `new RegExp("\\b" + word + "\\b", "gi")` used by
  the backup dictionary is modelled by an explicit scanner (`replGo`)
  implementing the ECMAScript semantics of `\b` (a position where exactly
  one of the two neighbouring characters is a word character
  `[A-Za-z0-9_]`) and of the case-insensitive flag on ASCII letters,
  together with the left-to-right non-overlapping global replacement of
  `String.prototype.replace`.
-/

namespace TranslationService

/-- Log levels used by `TranslationService.log` in the source. -/
inductive LogLevel where
  | INFO
  | WARN
  | ERROR
  | SUCCESS
deriving DecidableEq, Repr

/-- One log record (source lines 42–48), keeping the `level`, `service` and
`message` fields; `timestamp` and `details` carry wall-clock data and are
dropped from the embedding. -/
structure LogEntry where
  level : LogLevel
  service : Option String
  message : String
deriving DecidableEq, Repr

/-- The result value produced by the adapters, by `useBackupTranslation`
and by `translateText` (fields `success`, `text`, `service` in the
source; the empty-input result sets no `service`, hence the `Option`). -/
structure TranslationResult where
  success : Bool
  text : String
  service : Option String
deriving DecidableEq, Repr

/-- One entry of `this.services` (source lines 4–33).  The `translator`
field models the bound adapter method: a call either resolves with a
`TranslationResult` or throws an error with a message (`Except.error`).
The `url` field of the source is configuration consumed only inside the
adapters' `fetch` calls and is omitted. -/
structure Service where
  name : String
  translator : String → String → String → Except String TranslationResult
  priority : Int
  enabled : Bool

/-- The mutable state of a `TranslationService` instance:
`this.services`, `this.failedServices` and `this.logs`. -/
structure ServiceState where
  services : List Service
  failedServices : List String
  logs : List LogEntry

/-- `this.maxLogSize` (source line 37): fixed at construction, never
mutated. -/
def maxLogSize : Nat := 1000

/-- `this.logs.push(entry); if (this.logs.length > this.maxLogSize)
this.logs.shift();` (source lines 50–54). -/
def appendLog (l : List LogEntry) (e : LogEntry) : List LogEntry :=
  if maxLogSize < (l ++ [e]).length then (l ++ [e]).tail else l ++ [e]

/-- `this.log(level, message, service)` (source lines 41–58); the UI
callback `updateLogsUI` is outside the core. -/
def logE (st : ServiceState) (lvl : LogLevel) (msg : String)
    (svc : Option String) : ServiceState :=
  { st with logs := appendLog st.logs ⟨lvl, svc, msg⟩ }

/-- `Set.add`: a JS `Set` ignores an element already present and appends a
new element in insertion order. -/
def setAdd (l : List String) (n : String) : List String :=
  if n ∈ l then l else l ++ [n]

/-- `Set.delete`: removes the element (the list is duplicate-free because
`setAdd` never duplicates). -/
def setDel (l : List String) (n : String) : List String :=
  l.filter (fun m => m != n)

/-- The ECMAScript whitespace class used by `String.prototype.trim`
(WhiteSpace and LineTerminator code points); `!text.trim()` holds exactly
when every character of `text` is in this class. -/
def isJsSpace (c : Char) : Bool :=
  c == ' ' || ('\x09' ≤ c && c ≤ '\x0d') || c == '\u00a0' || c == '\u1680' ||
  ('\u2000' ≤ c && c ≤ '\u200a') || c == '\u2028' || c == '\u2029' ||
  c == '\u202f' || c == '\u205f' || c == '\u3000' || c == '\ufeff'

/-- `!text.trim()` (source line 68): the text is empty or all-whitespace. -/
def isBlank (s : String) : Bool :=
  s.toList.all isJsSpace

/-- Character-list prefix test (helper for `strIncludes`). -/
def isPreC : List Char → List Char → Bool
  | [], _ => true
  | _ :: _, [] => false
  | a :: as, b :: bs => a == b && isPreC as bs

/-- Does the second list occur as a contiguous run inside the first? -/
def hasSub (n : List Char) : List Char → Bool
  | [] => n.isEmpty
  | c :: rest => isPreC n (c :: rest) || hasSub n rest

/-- `s.includes(sub)` of JS strings (used on `error.message`, source
line 118). -/
def strIncludes (s sub : String) : Bool :=
  hasSub sub.toList s.toList

/-- The filter of source line 80:
`service.enabled && !this.failedServices.has(service.name)`. -/
def candOk (st : ServiceState) (s : Service) : Bool :=
  s.enabled && !(st.failedServices.contains s.name)

/-- The ordering used by `.sort((a, b) => a.priority - b.priority)`
(source line 81): ascending priority.  JS engines implement a stable
sort, so the call is modelled by a stable sort with respect to this
relation. -/
def prioLE (a b : Service) : Prop := a.priority ≤ b.priority

instance : DecidableRel prioLE := fun a b => Int.decLe a.priority b.priority

instance : IsTotal Service prioLE := ⟨fun a b => Int.le_total a.priority b.priority⟩

instance : IsTrans Service prioLE := ⟨fun _ _ _ h h' => le_trans h h'⟩

/-- The candidate list of source lines 79–81: enabled services not in
`failedServices`, stably sorted by ascending priority. -/
def availableServices (st : ServiceState) : List Service :=
  List.insertionSort prioLE (st.services.filter (candOk st))

/-- The `\w` class of a non-unicode ECMAScript regular expression:
`[A-Za-z0-9_]`. -/
def isWordChar (c : Char) : Bool :=
  ('a' ≤ c && c ≤ 'z') || ('A' ≤ c && c ≤ 'Z') || ('0' ≤ c && c ≤ '9') || c == '_'

/-- ASCII lower-casing, the canonicalisation the `i` flag applies to the
ASCII-only dictionary keys. -/
def lowerCh (c : Char) : Char :=
  if 'A' ≤ c && c ≤ 'Z' then Char.ofNat (c.toNat + 32) else c

/-- Does the text start with the key, compared case-insensitively? -/
def matchesAt : List Char → List Char → Bool
  | [], _ => true
  | _ :: _, [] => false
  | a :: as, b :: bs => (lowerCh a == lowerCh b) && matchesAt as bs

/-- Is the last text character consumed by a match of `n` at the front of
`s` a word character?  (`false` when nothing is consumed.) -/
def lastMatchedIsWord (n s : List Char) : Bool :=
  match (s.take n.length).getLast? with
  | some d => isWordChar d
  | none => false

/-- The `\b` assertion at the position right after a match of `n` at the
front of `s`: a word boundary holds when exactly one of the neighbouring
characters is a word character (end of input counts as a non-word
neighbour). -/
def boundAfter (n s : List Char) : Bool :=
  match s.drop n.length with
  | [] => lastMatchedIsWord n s
  | d :: _ => lastMatchedIsWord n s != isWordChar d

/-- The global replacement `text.replace(new RegExp("\\b" + key + "\\b",
"gi"), val)` as a left-to-right scanner.  `skip` counts matched
characters still to be consumed without emitting (the tail of a match
whose replacement was already emitted); `prevW` records whether the
character immediately before the current position is a word character
(`false` at the start of the string), which together with the first
matched character decides the leading `\b`. -/
def replGo (n r : List Char) : List Char → Nat → Bool → List Char
  | [], _, _ => []
  | c :: rest, k + 1, _ => replGo n r rest k (isWordChar c)
  | c :: rest, 0, prevW =>
    if !n.isEmpty && matchesAt n (c :: rest) && (prevW != isWordChar c)
        && boundAfter n (c :: rest) then
      r ++ replGo n r rest (n.length - 1) (isWordChar c)
    else
      c :: replGo n r rest 0 (isWordChar c)

/-- One dictionary step of source lines 295–298. -/
def replaceAllWord (key val s : String) : String :=
  ⟨replGo key.toList val.toList s.toList 0 false⟩

/-- Does the key match anywhere in the text as a case-insensitive whole
word?  Mirrors the match condition of `replGo` at every position. -/
def hasMatchAux (n : List Char) : List Char → Bool → Bool
  | [], _ => false
  | c :: rest, prevW =>
    (!n.isEmpty && matchesAt n (c :: rest) && (prevW != isWordChar c)
      && boundAfter n (c :: rest))
    || hasMatchAux n rest (isWordChar c)

/-- String-level whole-word match test. -/
def hasWordMatch (key s : String) : Bool :=
  hasMatchAux key.toList s.toList false

/-- The `backupDict` table of source lines 282–292, in declaration
order. -/
def backupDict : List (String × String) :=
  [("hello", "привіт"), ("world", "світ"), ("how", "як"), ("are", "є"),
   ("you", "ти"), ("what", "що"), ("where", "де"), ("when", "коли"),
   ("why", "чому"), ("who", "хто"), ("which", "який"), ("good", "добре"),
   ("morning", "ранок"), ("afternoon", "день"), ("evening", "вечір"),
   ("night", "ніч"), ("thank", "дякую"), ("please", "будь ласка"),
   ("yes", "так"), ("no", "ні"), ("sorry", "вибачте"), ("help", "допомога"),
   ("name", "ім\x27я"), ("my", "мій"), ("is", "є"), ("your", "твій"),
   ("his", "його"), ("her", "її"), ("our", "наш"), ("their", "їхній"),
   ("and", "і"), ("but", "але"), ("or", "або"), ("because", "тому що"),
   ("if", "якщо"), ("then", "тоді"), ("very", "дуже"), ("too", "теж"),
   ("also", "також"), ("only", "тільки")]

/-- The `Object.keys(backupDict).forEach` loop of source lines 294–298. -/
def applyBackupDict (s : String) : String :=
  backupDict.foldl (fun acc kv => replaceAllWord kv.1 kv.2 acc) s

/-- `useBackupTranslation(text)` (source lines 279–305): logs a WARN,
substitutes every dictionary key, prefixes the fixed marker and always
succeeds with `service = "BackupDictionary"`. -/
def useBackupTranslation (st : ServiceState) (text : String) :
    ServiceState × TranslationResult :=
  let st1 := logE st .WARN "Використання резервного перекладу" (some "Backup")
  (st1, { success := true,
          text := "[Резервний переклад] " ++ applyBackupDict text,
          service := some "BackupDictionary" })

/-- The adapter resolved with a result that is not a success, or threw:
the loop of `translateText` passes over such a candidate. -/
def notSucceeds (text sl tl : String) (s : Service) : Prop :=
  ∀ r, s.translator text sl tl = Except.ok r → r.success = false

/-- The `for (const service of availableServices)` loop of source lines
93–125: logs the attempt, invokes the adapter, returns the first
successful result (clearing the provider from `failedServices`), logs
ERROR on a thrown error plus — when the message signals a rate limit — a
`failedServices` mark and a WARN, and otherwise falls through to the
next candidate. -/
def tryServices (text sl tl : String) :
    ServiceState → List Service → ServiceState × Option TranslationResult
  | st, [] => (st, none)
  | st, svc :: rest =>
    let st1 := logE st .INFO ("Спроба перекладу через " ++ svc.name) (some svc.name)
    match svc.translator text sl tl with
    | Except.ok result =>
      if result.success then
        let st2 := logE st1 .SUCCESS ("Переклад успішний через " ++ svc.name)
          (some svc.name)
        ({ st2 with failedServices := setDel st2.failedServices svc.name },
         some result)
      else
        tryServices text sl tl st1 rest
    | Except.error emsg =>
      let st2 := logE st1 .ERROR ("Помилка перекладу через " ++ svc.name)
        (some svc.name)
      let st3 :=
        if strIncludes emsg "429" || strIncludes emsg "limit" then
          let stA := { st2 with failedServices := setAdd st2.failedServices svc.name }
          logE stA .WARN ("Ліміт сервісу " ++ svc.name ++ " перевищено")
            (some svc.name)
        else st2
      tryServices text sl tl st3 rest

/-- `translateText(text, sourceLang, targetLang)` (source lines 67–133). -/
def translateText (st : ServiceState) (text sl tl : String) :
    ServiceState × TranslationResult :=
  if isBlank text then
    (logE st .WARN "Спроба перекладу пустого тексту" none,
     { success := false, text := "", service := none })
  else
    let st1 := logE st .INFO
      ("Початок перекладу: \"" ++ text.take 50 ++ "...\"") none
    let cands := availableServices st1
    let st2 := logE st1 .INFO
      ("Доступні сервіси: " ++ String.intercalate ", " (cands.map (fun s => s.name)))
      none
    if cands.isEmpty then
      let st3 := logE st2 .ERROR "Немає доступних сервісів перекладу" none
      useBackupTranslation st3 text
    else
      match tryServices text sl tl st2 cands with
      | (stT, some r) => (stT, r)
      | (stT, none) =>
        let st4 := logE stT .ERROR "Усі сервіси перекладу не спрацювали" none
        useBackupTranslation st4 text

/-- The `k` most recent log records. -/
def lastK (k : Nat) (l : List LogEntry) : List LogEntry :=
  l.reverse.take k

/-- The state built by the constructor (source lines 3–38), with the four
bound adapter methods abstracted as parameters: names, priorities and
`enabled` flags exactly as declared. -/
def mkInitialState
    (t1 t2 t3 t4 : String → String → String → Except String TranslationResult) :
    ServiceState :=
  ⟨[⟨"MyMemory", t1, 0, true⟩,
    ⟨"LibreTranslate", t2, 1, true⟩,
    ⟨"Apertium", t3, 2, true⟩,
    ⟨"GoogleTranslate", t4, 3, true⟩], [], []⟩

/-- An adapter whose endpoint always answers with a non-429 HTTP error
(concrete witness fixture). -/
def errTranslator : String → String → String → Except String TranslationResult :=
  fun _ _ _ => Except.error "HTTP error: 500"

/-- An adapter that is always rate-limited (concrete witness fixture). -/
def rateLimitTranslator : String → String → String → Except String TranslationResult :=
  fun _ _ _ => Except.error "MyMemory failed: 429 - Rate limit exceeded"

/-- An adapter that always succeeds (concrete witness fixture). -/
def okTranslator : String → String → String → Except String TranslationResult :=
  fun _ _ _ => Except.ok ⟨true, "привіт", some "MyMemory"⟩

/-- An adapter that resolves with an unsuccessful result (concrete
witness fixture). -/
def unsTranslator : String → String → String → Except String TranslationResult :=
  fun _ _ _ => Except.ok ⟨false, "", some "Apertium"⟩

/-- Fixture: a state with no services. -/
def emptyState : ServiceState := ⟨[], [], []⟩

/-- Fixture for the priority example of C3: three enabled services
declared with priorities 2, 0, 1. -/
def svcPrio2 : Service := ⟨"Alpha", errTranslator, 2, true⟩

def svcPrio0 : Service := ⟨"Beta", errTranslator, 0, true⟩

def svcPrio1 : Service := ⟨"Gamma", errTranslator, 1, true⟩

def prioDemoState : ServiceState := ⟨[svcPrio2, svcPrio0, svcPrio1], [], []⟩

/-- Fixture for the rate-limit scenario: the first service is
rate-limited, the second fails with a plain error. -/
def svcRate : Service := ⟨"MyMemory", rateLimitTranslator, 0, true⟩

def svcPlain : Service := ⟨"LibreTranslate", errTranslator, 1, true⟩

def rateDemoState : ServiceState := ⟨[svcRate, svcPlain], [], []⟩

/-- Fixture for the success scenario. -/
def svcOk : Service := ⟨"MyMemory", okTranslator, 0, true⟩

def okDemoState : ServiceState := ⟨[svcOk], [], []⟩

/-- Fixture for the unsuccessful-result scenario. -/
def svcUns : Service := ⟨"Apertium", unsTranslator, 2, true⟩

@[simp]
theorem logE_services (st : ServiceState) (lvl msg svc) :
    (logE st lvl msg svc).services = st.services := rfl

@[simp]
theorem logE_failedServices (st : ServiceState) (lvl msg svc) :
    (logE st lvl msg svc).failedServices = st.failedServices := rfl

@[simp]
theorem logE_logs (st : ServiceState) (lvl msg svc) :
    (logE st lvl msg svc).logs = appendLog st.logs ⟨lvl, svc, msg⟩ := rfl

theorem appendLog_of_lt {l : List LogEntry} (e : LogEntry)
    (h : l.length < maxLogSize) : appendLog l e = l ++ [e] := by
  have hlen : (l ++ [e]).length = l.length + 1 := by simp
  rw [appendLog, if_neg (by omega)]

theorem appendLog_of_eq {l : List LogEntry} (e : LogEntry)
    (h : l.length = maxLogSize) : appendLog l e = l.tail ++ [e] := by
  rcases l with - | ⟨a, l'⟩
  · simp [maxLogSize] at h
  · have hlen : ((a :: l') ++ [e]).length = l'.length + 2 := by simp
    have h2 : l'.length + 1 = maxLogSize := by simpa using h
    rw [appendLog, if_pos (by omega)]
    rfl

theorem length_appendLog_le {l : List LogEntry} (e : LogEntry)
    (h : l.length ≤ maxLogSize) : (appendLog l e).length ≤ maxLogSize := by
  rw [appendLog]
  split
  · next h2 =>
    simp only [List.length_tail, List.length_append, List.length_cons,
      List.length_nil] at h2 ⊢
    omega
  · next h2 =>
    simp only [List.length_append, List.length_cons, List.length_nil] at h2 ⊢
    omega

theorem appendLog_getLast? (l : List LogEntry) (e : LogEntry) :
    (appendLog l e).getLast? = some e := by
  rw [appendLog]
  split
  · next h =>
    rcases l with - | ⟨a, l'⟩
    · simp [maxLogSize] at h
    · show (l' ++ [e]).getLast? = some e
      exact List.getLast?_concat _
  · exact List.getLast?_concat _

theorem mem_lastK_mono {x : LogEntry} {k k2 : Nat} {l : List LogEntry}
    (h : x ∈ lastK k l) (hk : k ≤ k2) : x ∈ lastK k2 l := by
  simp only [lastK] at h ⊢
  rw [show k = min k k2 by omega, ← List.take_take] at h
  exact List.take_subset _ _ h

theorem mem_of_mem_lastK {x : LogEntry} {k : Nat} {l : List LogEntry}
    (h : x ∈ lastK k l) : x ∈ l := by
  simp only [lastK] at h
  have := List.take_subset k l.reverse h
  simpa using this

theorem mem_lastK_one_appendLog (l : List LogEntry) (x : LogEntry) :
    x ∈ lastK 1 (appendLog l x) := by
  rw [lastK, appendLog]
  split
  · next h =>
    rcases l with - | ⟨a, l'⟩
    · simp [maxLogSize] at h
    · show x ∈ (l' ++ [x]).reverse.take 1
      simp
  · simp

theorem mem_lastK_appendLog {x : LogEntry} {k : Nat} {l : List LogEntry}
    (e : LogEntry) (h : x ∈ lastK k l) (hk : k < maxLogSize) :
    x ∈ lastK (k + 1) (appendLog l e) := by
  rw [lastK] at h
  rw [lastK, appendLog]
  split
  · next h2 =>
    rcases l with - | ⟨a, l'⟩
    · simp [maxLogSize] at h2
    · have h2' : maxLogSize < l'.length + 2 := by simpa using h2
      show x ∈ (l' ++ [e]).reverse.take (k + 1)
      rw [List.reverse_append]
      simp only [List.reverse_cons, List.reverse_nil, List.nil_append,
        List.singleton_append, List.take_succ_cons, List.mem_cons]
      rw [List.reverse_cons] at h
      have hle : k ≤ l'.reverse.length := by
        simp only [List.length_reverse]
        unfold maxLogSize at hk h2'
        omega
      rw [List.take_append_of_le_length hle] at h
      exact Or.inr h
  · rw [List.reverse_append]
    simp only [List.reverse_cons, List.reverse_nil, List.nil_append,
      List.singleton_append, List.take_succ_cons, List.mem_cons]
    exact Or.inr h

@[simp]
theorem withFailed_logs (st : ServiceState) (f : List String) :
    ({ st with failedServices := f } : ServiceState).logs = st.logs := rfl

@[simp]
theorem withFailed_services (st : ServiceState) (f : List String) :
    ({ st with failedServices := f } : ServiceState).services = st.services := rfl

@[simp]
theorem withFailed_failedServices (st : ServiceState) (f : List String) :
    ({ st with failedServices := f } : ServiceState).failedServices = f := rfl

theorem not_mem_setDel (l : List String) (n : String) : n ∉ setDel l n := by
  intro h
  rcases List.mem_filter.mp h with ⟨-, h2⟩
  simp at h2

theorem mem_setDel_of_ne {l : List String} {n m : String} (h : n ∈ l)
    (hne : n ≠ m) : n ∈ setDel l m :=
  List.mem_filter.mpr ⟨h, by simpa using hne⟩

theorem mem_setAdd_self (l : List String) (n : String) : n ∈ setAdd l n := by
  rw [setAdd]
  split
  · assumption
  · simp

theorem mem_setAdd_of_mem {l : List String} {n : String} (m : String)
    (h : n ∈ l) : n ∈ setAdd l m := by
  rw [setAdd]
  split
  · exact h
  · exact List.mem_append_left _ h

/-- The loop never touches `this.services`. -/
theorem tryServices_services (text sl tl : String) :
    ∀ (cands : List Service) (st : ServiceState),
      (tryServices text sl tl st cands).1.services = st.services := by
  intro cands
  induction cands with
  | nil => intro st; rfl
  | cons svc rest ih =>
    intro st
    rw [tryServices]
    rcases hc : svc.translator text sl tl with e | r
    · simp only
      split <;> exact ih _
    · simp only
      split
      · rfl
      · exact ih _

/-- A name no candidate carries survives the loop inside
`failedServices`. -/
theorem tryServices_failed_preserved (text sl tl : String) {n : String} :
    ∀ (cands : List Service) (st : ServiceState),
      n ∈ st.failedServices → (∀ s ∈ cands, s.name ≠ n) →
      n ∈ (tryServices text sl tl st cands).1.failedServices := by
  intro cands
  induction cands with
  | nil => intro st h _; exact h
  | cons svc rest ih =>
    intro st h hall
    have hsvc : svc.name ≠ n := hall svc (by simp)
    have hrest : ∀ s ∈ rest, s.name ≠ n := fun s hs => hall s (by simp [hs])
    rw [tryServices]
    rcases hc : svc.translator text sl tl with e | r
    · simp only
      split
      · exact ih _ (mem_setAdd_of_mem _ h) hrest
      · exact ih _ h hrest
    · simp only
      split
      · exact mem_setDel_of_ne h (fun hn => hsvc hn.symm)
      · exact ih _ h hrest

/-- A result handed back by the loop always has `success = true` (the loop
only returns at the `result.success` check of source line 101). -/
theorem tryServices_some_success (text sl tl : String) :
    ∀ (cands : List Service) (st : ServiceState) (r : TranslationResult),
      (tryServices text sl tl st cands).2 = some r → r.success = true := by
  intro cands
  induction cands with
  | nil => intro st r h; simp [tryServices] at h
  | cons svc rest ih =>
    intro st r h
    rw [tryServices] at h
    rcases hc : svc.translator text sl tl with e | res
    · rw [hc] at h
      simp only at h
      split at h
      · exact ih _ _ h
      · exact ih _ _ h
    · rw [hc] at h
      simp only at h
      split at h
      · next hs =>
        cases h with
        | refl => exact hs
      · exact ih _ _ h

/-- When every candidate either throws or resolves unsuccessfully, the
loop falls through. -/
theorem tryServices_all_fail (text sl tl : String) :
    ∀ (cands : List Service) (st : ServiceState),
      (∀ s ∈ cands, notSucceeds text sl tl s) →
      (tryServices text sl tl st cands).2 = none := by
  intro cands
  induction cands with
  | nil => intro st _; rfl
  | cons svc rest ih =>
    intro st hall
    have hrest : ∀ s ∈ rest, notSucceeds text sl tl s :=
      fun s hs => hall s (by simp [hs])
    rw [tryServices]
    rcases hc : svc.translator text sl tl with e | r
    · simp only
      split <;> exact ih _ hrest
    · have : r.success = false := hall svc (by simp) r hc
      simp only [this]
      exact ih _ hrest

/-- Peeling a block of failing candidates off the front of the loop. -/
theorem tryServices_append (text sl tl : String) :
    ∀ (pre : List Service) (st : ServiceState) (rest : List Service),
      (∀ s ∈ pre, notSucceeds text sl tl s) →
      ∃ st1, tryServices text sl tl st (pre ++ rest)
               = tryServices text sl tl st1 rest
             ∧ st1.services = st.services := by
  intro pre
  induction pre with
  | nil => intro st rest _; exact ⟨st, rfl, rfl⟩
  | cons p t ih =>
    intro st rest hall
    have ht : ∀ s ∈ t, notSucceeds text sl tl s :=
      fun s hs => hall s (by simp [hs])
    rw [List.cons_append, tryServices]
    rcases hc : p.translator text sl tl with e | r
    · simp only
      split
      · next hm =>
        rcases ih _ rest ht with ⟨st1, heq, hsv⟩
        exact ⟨st1, heq, by simpa using hsv⟩
      · rcases ih _ rest ht with ⟨st1, heq, hsv⟩
        exact ⟨st1, heq, by simpa using hsv⟩
    · have : r.success = false := hall p (by simp) r hc
      simp only [this]
      rcases ih _ rest ht with ⟨st1, heq, hsv⟩
      exact ⟨st1, heq, by simpa using hsv⟩

/-- A recent log record stays recent across the loop: every iteration
appends at most three records. -/
theorem tryServices_lastK (text sl tl : String) {x : LogEntry} :
    ∀ (cands : List Service) (st : ServiceState) (k : Nat),
      x ∈ lastK k st.logs → k + 3 * cands.length ≤ maxLogSize →
      x ∈ lastK (k + 3 * cands.length) ((tryServices text sl tl st cands).1.logs) := by
  intro cands
  induction cands with
  | nil => intro st k h _; simpa using h
  | cons svc rest ih =>
    intro st k h hbound
    have hlen : (svc :: rest).length = rest.length + 1 := rfl
    rw [hlen] at hbound ⊢
    have hb : k + 3 * rest.length + 3 ≤ maxLogSize := by omega
    have h1 : x ∈ lastK (k + 1) (logE st .INFO
        ("Спроба перекладу через " ++ svc.name) (some svc.name)).logs := by
      simp only [logE_logs]
      exact mem_lastK_appendLog _ h (by omega)
    have h2 : x ∈ lastK (k + 2) (appendLog (appendLog st.logs
        ⟨.INFO, some svc.name, "Спроба перекладу через " ++ svc.name⟩)
        ⟨.ERROR, some svc.name, "Помилка перекладу через " ++ svc.name⟩) :=
      mem_lastK_appendLog _ (by simpa using h1) (by omega)
    rw [tryServices]
    rcases hc : svc.translator text sl tl with e | r
    · simp only
      split
      · next hm =>
        have h3 := mem_lastK_appendLog
          (⟨.WARN, some svc.name, "Ліміт сервісу " ++ svc.name ++ " перевищено"⟩ : LogEntry)
          h2 (by omega)
        have hidx : k + 3 * (rest.length + 1) = k + 3 + 3 * rest.length := by ring
        rw [hidx]
        refine ih _ (k + 3) ?_ (by omega)
        simpa using h3
      · have hidx : k + 3 * (rest.length + 1) = k + 2 + (3 * rest.length + 1) := by ring
        rw [hidx]
        exact mem_lastK_mono (ih _ (k + 2) (by simpa using h2) (by omega)) (by omega)
    · simp only
      split
      · have h4 : x ∈ lastK (k + 2) (appendLog (appendLog st.logs
            ⟨.INFO, some svc.name, "Спроба перекладу через " ++ svc.name⟩)
            ⟨.SUCCESS, some svc.name, "Переклад успішний через " ++ svc.name⟩) :=
          mem_lastK_appendLog _ (by simpa using h1) (by omega)
        exact mem_lastK_mono (by simpa using h4) (by omega)
      · have hidx : k + 3 * (rest.length + 1) = k + 1 + (3 * rest.length + 2) := by ring
        rw [hidx]
        exact mem_lastK_mono (ih _ (k + 1) (by simpa using h1) (by omega)) (by omega)

/-- The loop keeps the log inside its bound. -/
theorem tryServices_logs_le (text sl tl : String) :
    ∀ (cands : List Service) (st : ServiceState),
      st.logs.length ≤ maxLogSize →
      (tryServices text sl tl st cands).1.logs.length ≤ maxLogSize := by
  intro cands
  induction cands with
  | nil => intro st h; exact h
  | cons svc rest ih =>
    intro st h
    have h1 := length_appendLog_le
      (⟨.INFO, some svc.name, "Спроба перекладу через " ++ svc.name⟩ : LogEntry) h
    rw [tryServices]
    rcases hc : svc.translator text sl tl with e | r
    · simp only
      split
      · exact ih _ (by simpa using length_appendLog_le _ (length_appendLog_le _ h1))
      · exact ih _ (by simpa using length_appendLog_le _ h1)
    · simp only
      split
      · simpa using length_appendLog_le _ h1
      · exact ih _ (by simpa using h1)

theorem availableServices_sorted (st : ServiceState) :
    (availableServices st).Sorted prioLE :=
  List.sorted_insertionSort prioLE _

theorem mem_availableServices {st : ServiceState} {s : Service} :
    s ∈ availableServices st ↔
      s ∈ st.services ∧ s.enabled = true ∧ s.name ∉ st.failedServices := by
  rw [availableServices, (List.perm_insertionSort prioLE _).mem_iff,
    List.mem_filter, candOk]
  constructor
  · rintro ⟨h1, h2⟩
    rw [Bool.and_eq_true, Bool.not_eq_true'] at h2
    refine ⟨h1, h2.1, ?_⟩
    intro hmem
    rw [show st.failedServices.contains s.name = (st.failedServices.elem s.name) from rfl,
      List.elem_eq_true_of_mem hmem] at h2
    exact Bool.false_ne_true h2.2.symm
  · rintro ⟨h1, h2, h3⟩
    refine ⟨h1, ?_⟩
    rw [Bool.and_eq_true, Bool.not_eq_true']
    refine ⟨h2, ?_⟩
    rw [show st.failedServices.contains s.name = (st.failedServices.elem s.name) from rfl]
    rcases h : st.failedServices.elem s.name
    · rfl
    · exact absurd (List.elem_iff.mp h) h3

/-- Inserting an element of priority `q` puts it in front of every
element of priority `q` already present (part of the stability of the
sort). -/
theorem filter_orderedInsert_eq (a : Service) (q : Int) (ha : a.priority = q) :
    ∀ l : List Service,
      (List.orderedInsert prioLE a l).filter (fun s => s.priority == q)
        = a :: l.filter (fun s => s.priority == q) := by
  intro l
  induction l with
  | nil => simp [List.orderedInsert, List.filter, ha]
  | cons b t ih =>
    rw [List.orderedInsert]
    split
    · rw [List.filter_cons_of_pos (by simpa using ha)]
    · next hn =>
      have hb : b.priority < a.priority := by
        rw [prioLE] at hn
        omega
      have hbq : (b.priority == q) = false := by
        rw [beq_eq_false_iff_ne]
        omega
      rw [List.filter_cons_of_neg (by simp [hbq]),
        List.filter_cons_of_neg (by simp [hbq]), ih]

/-- Inserting an element of a different priority leaves the priority-`q`
subsequence unchanged. -/
theorem filter_orderedInsert_ne (a : Service) (q : Int) (ha : a.priority ≠ q) :
    ∀ l : List Service,
      (List.orderedInsert prioLE a l).filter (fun s => s.priority == q)
        = l.filter (fun s => s.priority == q) := by
  intro l
  have haq : (a.priority == q) = false := by
    rw [beq_eq_false_iff_ne]
    exact ha
  induction l with
  | nil => simp [List.orderedInsert, List.filter, haq]
  | cons b t ih =>
    rw [List.orderedInsert]
    split
    · rw [List.filter_cons_of_neg (by simp [haq])]
    · rcases hbq : (b.priority == q)
      · rw [List.filter_cons_of_neg (by simp [hbq]),
          List.filter_cons_of_neg (by simp [hbq]), ih]
      · rw [List.filter_cons_of_pos (by simp [hbq]),
          List.filter_cons_of_pos (by simp [hbq]), ih]

/-- Stability of the sort: services of equal priority keep their relative
declaration order. -/
theorem filter_insertionSort (q : Int) :
    ∀ l : List Service,
      (List.insertionSort prioLE l).filter (fun s => s.priority == q)
        = l.filter (fun s => s.priority == q) := by
  intro l
  induction l with
  | nil => rfl
  | cons a t ih =>
    rw [List.insertionSort]
    rcases haq : decide (a.priority = q) with - | -
    · have ha : a.priority ≠ q := of_decide_eq_false haq
      rw [filter_orderedInsert_ne a q ha _, ih,
        List.filter_cons_of_neg (by simpa using ha)]
    · have ha : a.priority = q := of_decide_eq_true haq
      rw [filter_orderedInsert_eq a q ha _, ih,
        List.filter_cons_of_pos (by simpa using ha)]

/-- A key with no whole-word occurrence leaves the text untouched. -/
theorem replGo_no_match (n r : List Char) :
    ∀ (s : List Char) (prevW : Bool),
      hasMatchAux n s prevW = false → replGo n r s 0 prevW = s := by
  intro s
  induction s with
  | nil => intro prevW _; rfl
  | cons c rest ih =>
    intro prevW h
    rw [hasMatchAux, Bool.or_eq_false_iff] at h
    rw [replGo, if_neg (by simp [h.1]), ih _ h.2]

theorem replaceAllWord_no_match {key s : String} (val : String)
    (h : hasWordMatch key s = false) : replaceAllWord key val s = s := by
  rw [replaceAllWord, replGo_no_match _ _ _ _ h]
  rfl

theorem foldl_replace_no_match :
    ∀ (L : List (String × String)) (s : String),
      (∀ kv ∈ L, hasWordMatch kv.1 s = false) →
      L.foldl (fun acc kv => replaceAllWord kv.1 kv.2 acc) s = s := by
  intro L
  induction L with
  | nil => intro s _; rfl
  | cons kv T ih =>
    intro s h
    rw [List.foldl_cons, replaceAllWord_no_match kv.2 (h kv (by simp)),
      ih s (fun kv2 h2 => h kv2 (by simp [h2]))]

@[simp]
theorem useBackupTranslation_snd (st : ServiceState) (text : String) :
    (useBackupTranslation st text).2 =
      ⟨true, "[Резервний переклад] " ++ applyBackupDict text,
       some "BackupDictionary"⟩ := rfl

@[simp]
theorem useBackupTranslation_failedServices (st : ServiceState) (text : String) :
    (useBackupTranslation st text).1.failedServices = st.failedServices := rfl

@[simp]
theorem useBackupTranslation_services (st : ServiceState) (text : String) :
    (useBackupTranslation st text).1.services = st.services := rfl

theorem useBackupTranslation_getLast (st : ServiceState) (text : String) :
    (useBackupTranslation st text).1.logs.getLast? =
      some ⟨.WARN, some "Backup", "Використання резервного перекладу"⟩ :=
  appendLog_getLast? _ _

@[simp]
theorem availableServices_logE (st : ServiceState) (lvl msg svc) :
    availableServices (logE st lvl msg svc) = availableServices st := rfl

@[simp]
theorem useBackupTranslation_logs (st : ServiceState) (text : String) :
    (useBackupTranslation st text).1.logs =
      appendLog st.logs ⟨.WARN, some "Backup", "Використання резервного перекладу"⟩ := rfl

/-- Every path through `translateText` appends through `appendLog`, so
the log bound is preserved. -/
theorem translateText_logs_le (st : ServiceState) (text sl tl : String)
    (h : st.logs.length ≤ maxLogSize) :
    (translateText st text sl tl).1.logs.length ≤ maxLogSize := by
  rw [translateText]
  split
  · simpa using length_appendLog_le _ h
  · dsimp only
    simp only [availableServices_logE]
    split
    · simpa using length_appendLog_le _ (length_appendLog_le _
        (length_appendLog_le _ (length_appendLog_le _ h)))
    · rcases htry : tryServices text sl tl (logE (logE st .INFO
          ("Початок перекладу: \"" ++ text.take 50 ++ "...\"") none) .INFO
          ("Доступні сервіси: " ++ String.intercalate ", "
            ((availableServices st).map (fun s => s.name))) none)
          (availableServices st) with ⟨stT, res⟩
      have hT : stT.logs.length ≤ maxLogSize := by
        have := tryServices_logs_le text sl tl (availableServices st)
          (logE (logE st .INFO
            ("Початок перекладу: \"" ++ text.take 50 ++ "...\"") none) .INFO
            ("Доступні сервіси: " ++ String.intercalate ", "
              ((availableServices st).map (fun s => s.name))) none)
          (by simpa using length_appendLog_le _ (length_appendLog_le _ h))
        rw [htry] at this
        exact this
      rcases res with - | r
      · simpa using length_appendLog_le _ (length_appendLog_le _ hT)
      · exact hT

/-- C1: for every non-blank input `translateText` resolves with
`succeeded = true` (the loop only returns successful adapter results and
the backup always succeeds), and the only failing result is the one
returned for empty-or-whitespace input.  The embedding is a total
function, so no call throws to the caller. -/
theorem translateText_success_iff_nonblank (st : ServiceState)
    (text sl tl : String) :
    (translateText st text sl tl).2.success = !(isBlank text) := by
  rw [translateText]
  split
  · next h => rw [h]; rfl
  · next h =>
    rw [Bool.not_eq_true] at h
    dsimp only
    simp only [availableServices_logE]
    split
    · rw [h]
      rfl
    · rcases htry : tryServices text sl tl (logE (logE st .INFO
          ("Початок перекладу: \"" ++ text.take 50 ++ "...\"") none) .INFO
          ("Доступні сервіси: " ++ String.intercalate ", "
            ((availableServices st).map (fun s => s.name))) none)
          (availableServices st) with ⟨stT, res⟩
      rcases res with - | r
      · rw [h]
        rfl
      · have := tryServices_some_success text sl tl _ _ r (by rw [htry])
        rw [h, this]
        rfl

/-- C5: blank input returns `{success := false, text := ""}` after
appending exactly one WARN record; `failedServices` (and everything else
in the state) is untouched and the equation does not mention any
adapter, so no provider is invoked. -/
theorem blank_input_spec (st : ServiceState) (text sl tl : String)
    (h : isBlank text = true) :
    translateText st text sl tl =
      ({ st with logs := (appendLog st.logs
          ⟨.WARN, none, "Спроба перекладу пустого тексту"⟩) },
       { success := false, text := "", service := none }) := by
  rw [translateText, if_pos h]
  rfl

theorem blank_input_spec_witness :
    isBlank "   " = true ∧
    translateText emptyState "   " "en" "uk" =
      (⟨[], [], [⟨.WARN, none, "Спроба перекладу пустого тексту"⟩]⟩,
       ⟨false, "", none⟩) :=
  ⟨rfl, blank_input_spec emptyState "   " "en" "uk" rfl⟩

/-- C6: the log bound: appending to a log at the bound evicts the front
record and appends at the back, appending below the bound just appends,
the length never exceeds 1000, and `translateText` preserves the
invariant. -/
theorem log_bound_spec :
    (∀ (l : List LogEntry) (e : LogEntry), l.length ≤ maxLogSize →
        (appendLog l e).length ≤ maxLogSize) ∧
    (∀ (l : List LogEntry) (e : LogEntry), l.length = maxLogSize →
        appendLog l e = l.tail ++ [e]) ∧
    (∀ (l : List LogEntry) (e : LogEntry), l.length < maxLogSize →
        appendLog l e = l ++ [e]) ∧
    (∀ (st : ServiceState) (text sl tl : String),
        st.logs.length ≤ maxLogSize →
        (translateText st text sl tl).1.logs.length ≤ maxLogSize) :=
  ⟨fun _ e h => length_appendLog_le e h,
   fun _ e h => appendLog_of_eq e h,
   fun _ e h => appendLog_of_lt e h,
   fun st text sl tl h => translateText_logs_le st text sl tl h⟩

theorem log_bound_spec_witness :
    (List.replicate 1000 (⟨.INFO, none, "x"⟩ : LogEntry)).length = maxLogSize ∧
    appendLog (List.replicate 1000 (⟨.INFO, none, "x"⟩ : LogEntry))
        ⟨.WARN, none, "y"⟩
      = (List.replicate 1000 (⟨.INFO, none, "x"⟩ : LogEntry)).tail
          ++ [⟨.WARN, none, "y"⟩] :=
  ⟨by rw [List.length_replicate]; rfl,
   log_bound_spec.2.1 _ _ (by rw [List.length_replicate]; rfl)⟩

/-- C8: the backup substitution replaces only case-insensitive whole-word
matches: in "this is a test" the standalone word "is" becomes "є" while
the "is" inside the longer token "this" (and all other text) is left
verbatim. -/
theorem backup_word_boundary :
    (∀ st : ServiceState, (useBackupTranslation st "this is a test").2.text
        = "[Резервний переклад] this є a test") ∧
    applyBackupDict "this is a test" = "this є a test" := by
  refine ⟨fun st => ?_, by decide⟩
  rw [useBackupTranslation_snd]
  decide

/-- C9: on text containing no dictionary key as a whole word the backup
translation returns the input unchanged except for the fixed marker
prefix; it is a pure function of the text and always succeeds. -/
theorem backup_roundtrip_no_keys (st : ServiceState) (text : String)
    (h : ∀ kv ∈ backupDict, hasWordMatch kv.1 text = false) :
    (useBackupTranslation st text).2 =
      ⟨true, "[Резервний переклад] " ++ text, some "BackupDictionary"⟩ := by
  rw [useBackupTranslation_snd]
  show (⟨true, "[Резервний переклад] " ++ applyBackupDict text,
    some "BackupDictionary"⟩ : TranslationResult) = _
  rw [applyBackupDict, foldl_replace_no_match _ _ h]

theorem backup_roundtrip_no_keys_witness :
    (∀ kv ∈ backupDict, hasWordMatch kv.1 "xyz" = false) ∧
    (useBackupTranslation emptyState "xyz").2 =
      ⟨true, "[Резервний переклад] xyz", some "BackupDictionary"⟩ :=
  ⟨by decide, backup_roundtrip_no_keys emptyState "xyz" (by decide)⟩

/-- C10: a candidate that resolves with `success = false` is passed over
silently: the loop state handed to the remaining candidates differs only
by the INFO attempt record — no ERROR or WARN is appended and
`failedServices` is unchanged. -/
theorem unsuccessful_result_falls_through (st : ServiceState)
    (text sl tl : String) (svc : Service) (rest : List Service)
    (r : TranslationResult) (hok : svc.translator text sl tl = Except.ok r)
    (hf : r.success = false) :
    tryServices text sl tl st (svc :: rest)
      = tryServices text sl tl
          (logE st .INFO ("Спроба перекладу через " ++ svc.name) (some svc.name))
          rest
    ∧ (logE st .INFO ("Спроба перекладу через " ++ svc.name)
        (some svc.name)).failedServices = st.failedServices
    ∧ (logE st .INFO ("Спроба перекладу через " ++ svc.name)
        (some svc.name)).logs
      = appendLog st.logs
          ⟨.INFO, some svc.name, "Спроба перекладу через " ++ svc.name⟩ := by
  refine ⟨?_, rfl, rfl⟩
  rw [tryServices, hok]
  simp [hf]

theorem unsuccessful_result_falls_through_witness :
    svcUns.translator "hi" "en" "uk" = Except.ok ⟨false, "", some "Apertium"⟩ ∧
    (tryServices "hi" "en" "uk" emptyState [svcUns]
      = tryServices "hi" "en" "uk"
          (logE emptyState .INFO ("Спроба перекладу через " ++ svcUns.name)
            (some svcUns.name)) []
    ∧ (logE emptyState .INFO ("Спроба перекладу через " ++ svcUns.name)
        (some svcUns.name)).failedServices = emptyState.failedServices
    ∧ (logE emptyState .INFO ("Спроба перекладу через " ++ svcUns.name)
        (some svcUns.name)).logs
      = appendLog emptyState.logs
          ⟨.INFO, some svcUns.name, "Спроба перекладу через " ++ svcUns.name⟩) :=
  ⟨rfl, unsuccessful_result_falls_through emptyState "hi" "en" "uk" svcUns []
    ⟨false, "", some "Apertium"⟩ rfl rfl⟩

/-- C3: the candidate list consists exactly of the enabled descriptors
whose identifier is not in `failedServices`, is sorted by ascending
priority, ties keep declaration order (the priority-`q` subsequence
equals that of the declaration-order filtered list), and with three
enabled services of priorities 2, 0, 1 the attempt order is
priority 0, 1, 2. -/
theorem candidate_list_spec :
    (∀ st : ServiceState, (availableServices st).Sorted prioLE) ∧
    (∀ (st : ServiceState) (s : Service),
        s ∈ availableServices st ↔
          s ∈ st.services ∧ s.enabled = true ∧ s.name ∉ st.failedServices) ∧
    (∀ (st : ServiceState) (q : Int),
        (availableServices st).filter (fun s => s.priority == q)
          = (st.services.filter (candOk st)).filter (fun s => s.priority == q)) ∧
    availableServices prioDemoState = [svcPrio0, svcPrio1, svcPrio2] :=
  ⟨availableServices_sorted,
   fun _ _ => mem_availableServices,
   fun st q => filter_insertionSort q (st.services.filter (candOk st)),
   rfl⟩

/-- C4: when a candidate's adapter resolves with `success = true` (all
earlier candidates having failed or resolved unsuccessfully), the call
logs SUCCESS (it is the final record), removes the provider from
`failedServices`, and returns that adapter result itself; the theorem
holds for every tail `post` of later candidates without any assumption
on their adapters, so none of them is invoked. -/
theorem success_returns_immediately (st : ServiceState) (text sl tl : String)
    (pre : List Service) (svc : Service) (post : List Service)
    (r : TranslationResult)
    (hnb : isBlank text = false)
    (hdec : availableServices st = pre ++ svc :: post)
    (hpre : ∀ s ∈ pre, notSucceeds text sl tl s)
    (hok : svc.translator text sl tl = Except.ok r)
    (hs : r.success = true) :
    (translateText st text sl tl).2 = r ∧
    svc.name ∉ (translateText st text sl tl).1.failedServices ∧
    (translateText st text sl tl).1.logs.getLast?
      = some ⟨.SUCCESS, some svc.name, "Переклад успішний через " ++ svc.name⟩ := by
  rw [translateText, if_neg (by rw [hnb]; exact Bool.false_ne_true)]
  dsimp only
  simp only [availableServices_logE, hdec]
  rw [if_neg (by simp)]
  obtain ⟨st1, heq, -⟩ := tryServices_append text sl tl pre _ (svc :: post) hpre
  rw [heq, tryServices, hok]
  dsimp only
  rw [if_pos hs]
  refine ⟨rfl, not_mem_setDel _ _, ?_⟩
  simp only [withFailed_logs, logE_logs]
  exact appendLog_getLast? _ _

theorem success_returns_immediately_witness :
    isBlank "hello" = false ∧
    ((translateText okDemoState "hello" "en" "uk").2
        = ⟨true, "привіт", some "MyMemory"⟩ ∧
     svcOk.name ∉ (translateText okDemoState "hello" "en" "uk").1.failedServices ∧
     (translateText okDemoState "hello" "en" "uk").1.logs.getLast?
       = some ⟨.SUCCESS, some svcOk.name, "Переклад успішний через " ++ svcOk.name⟩) :=
  ⟨rfl, success_returns_immediately okDemoState "hello" "en" "uk" [] svcOk []
    ⟨true, "привіт", some "MyMemory"⟩ rfl rfl
    (fun s hs => absurd hs (List.not_mem_nil s)) rfl rfl⟩

/-- C7: when every declared provider is disabled or its adapter throws on
the call, `translate("hello world", "en", "uk")` produces the backup
result: text equal to the fixed marker followed by "привіт світ" (hence
containing "привіт світ"), `providerId = "BackupDictionary"`, and the
WARN record of the backup path is the last record logged when the result
is produced. -/
theorem backup_end_to_end (st : ServiceState)
    (hall : ∀ s ∈ st.services, s.enabled = false ∨
        ∃ e, s.translator "hello world" "en" "uk" = Except.error e) :
    (translateText st "hello world" "en" "uk").2.text
        = "[Резервний переклад] привіт світ" ∧
    strIncludes (translateText st "hello world" "en" "uk").2.text
        "привіт світ" = true ∧
    (translateText st "hello world" "en" "uk").2.service
        = some "BackupDictionary" ∧
    (translateText st "hello world" "en" "uk").1.logs.getLast?
      = some ⟨.WARN, some "Backup", "Використання резервного перекладу"⟩ := by
  have hbt : applyBackupDict "hello world" = "привіт світ" := by decide
  have hback : ∀ stX : ServiceState,
      (useBackupTranslation stX "hello world").2.text
        = "[Резервний переклад] привіт світ" := by
    intro stX
    rw [useBackupTranslation_snd]
    show "[Резервний переклад] " ++ applyBackupDict "hello world" = _
    rw [hbt]
    rfl
  rw [translateText, if_neg (by intro hc; cases hc)]
  dsimp only
  simp only [availableServices_logE]
  split
  · exact ⟨hback _, by rw [hback _]; decide, rfl, useBackupTranslation_getLast _ _⟩
  · have hfail : ∀ s ∈ availableServices st,
        notSucceeds "hello world" "en" "uk" s := by
      intro s hs
      obtain ⟨hmem, hen, -⟩ := mem_availableServices.mp hs
      rcases hall s hmem with hdis | ⟨e, he⟩
      · rw [hen] at hdis
        cases hdis
      · intro r hr
        rw [he] at hr
        cases hr
    rcases htry : tryServices "hello world" "en" "uk" (logE (logE st .INFO
        ("Початок перекладу: \"" ++ ("hello world" : String).take 50 ++ "...\"") none)
        .INFO ("Доступні сервіси: " ++ String.intercalate ", "
          ((availableServices st).map (fun s => s.name))) none)
        (availableServices st) with ⟨stT, res⟩
    have hnone := tryServices_all_fail "hello world" "en" "uk"
      (availableServices st) (logE (logE st .INFO
        ("Початок перекладу: \"" ++ ("hello world" : String).take 50 ++ "...\"") none)
        .INFO ("Доступні сервіси: " ++ String.intercalate ", "
          ((availableServices st).map (fun s => s.name))) none) hfail
    rw [htry] at hnone
    simp only at hnone
    subst hnone
    exact ⟨hback _, by rw [hback _]; decide, rfl, useBackupTranslation_getLast _ _⟩

theorem backup_end_to_end_witness :
    (∀ s ∈ (mkInitialState errTranslator errTranslator errTranslator
        errTranslator).services,
      s.enabled = false ∨
        ∃ e, s.translator "hello world" "en" "uk" = Except.error e) ∧
    ((translateText (mkInitialState errTranslator errTranslator errTranslator
        errTranslator) "hello world" "en" "uk").2.text
      = "[Резервний переклад] привіт світ" ∧
     strIncludes (translateText (mkInitialState errTranslator errTranslator
        errTranslator errTranslator) "hello world" "en" "uk").2.text
        "привіт світ" = true ∧
     (translateText (mkInitialState errTranslator errTranslator errTranslator
        errTranslator) "hello world" "en" "uk").2.service
      = some "BackupDictionary" ∧
     (translateText (mkInitialState errTranslator errTranslator errTranslator
        errTranslator) "hello world" "en" "uk").1.logs.getLast?
      = some ⟨.WARN, some "Backup", "Використання резервного перекладу"⟩) := by
  have hall : ∀ s ∈ (mkInitialState errTranslator errTranslator errTranslator
      errTranslator).services,
      s.enabled = false ∨
        ∃ e, s.translator "hello world" "en" "uk" = Except.error e := by
    intro s hs
    simp only [mkInitialState, List.mem_cons, List.not_mem_nil, or_false] at hs
    rcases hs with h | h | h | h <;> subst h <;> exact Or.inr ⟨_, rfl⟩
  exact ⟨hall, backup_end_to_end _ hall⟩

/-- C2: when a candidate's adapter throws an error whose message contains
"429" (or "limit") — all earlier candidates having failed or resolved
unsuccessfully — the provider identifier is in `failedServices` after
the call, the rate-limit WARN record is in the log after the call, and
the candidate list of the next call (same `services`, the
`failedServices` left by this call) contains no service with that
identifier.  The length bound keeps the handful of records appended
after the WARN below the log capacity; identifiers are unique by the
data model. -/
theorem rateLimit_marks_and_excludes (st : ServiceState) (text sl tl : String)
    (pre : List Service) (svc : Service) (post : List Service) (emsg : String)
    (hnb : isBlank text = false)
    (hnd : (st.services.map (fun s => s.name)).Nodup)
    (hlen : st.services.length ≤ 300)
    (hdec : availableServices st = pre ++ svc :: post)
    (hpre : ∀ s ∈ pre, notSucceeds text sl tl s)
    (herr : svc.translator text sl tl = Except.error emsg)
    (hmark : (strIncludes emsg "429" || strIncludes emsg "limit") = true) :
    svc.name ∈ (translateText st text sl tl).1.failedServices ∧
    (⟨.WARN, some svc.name, "Ліміт сервісу " ++ svc.name ++ " перевищено"⟩
        : LogEntry) ∈ (translateText st text sl tl).1.logs ∧
    ∀ s ∈ availableServices (translateText st text sl tl).1,
      s.name ≠ svc.name := by
  -- later candidates carry other identifiers
  have hndav : ((availableServices st).map (fun s : Service => s.name)).Nodup := by
    have hsub : List.Sublist
        ((st.services.filter (candOk st)).map (fun s : Service => s.name))
        (st.services.map (fun s : Service => s.name)) :=
      (List.filter_sublist st.services).map (fun s : Service => s.name)
    have h1 : ((st.services.filter (candOk st)).map
        (fun s : Service => s.name)).Nodup := hnd.sublist hsub
    exact ((List.perm_insertionSort prioLE
      (st.services.filter (candOk st))).map (fun s : Service => s.name)).nodup_iff.mpr h1
  have hpost : ∀ s ∈ post, s.name ≠ svc.name := by
    rw [hdec, List.map_append] at hndav
    have h2 := hndav.of_append_right
    rw [List.map_cons, List.nodup_cons] at h2
    intro s hs heq
    exact h2.1 (List.mem_map.mpr ⟨s, hs, heq⟩)
  -- the bound on the number of candidates after `svc`
  have hplen : post.length ≤ 300 := by
    have h3 : (availableServices st).length ≤ st.services.length := by
      rw [availableServices, (List.perm_insertionSort prioLE
        (st.services.filter (candOk st))).length_eq]
      exact List.length_filter_le _ _
    rw [hdec] at h3
    simp only [List.length_append, List.length_cons] at h3
    omega
  rw [translateText, if_neg (by rw [hnb]; exact Bool.false_ne_true)]
  dsimp only
  simp only [availableServices_logE, hdec]
  rw [if_neg (by simp)]
  obtain ⟨st1, heqq, -⟩ := tryServices_append text sl tl pre _ (svc :: post) hpre
  rw [heqq, tryServices, herr]
  dsimp only
  rw [if_pos hmark]
  set stMid := logE { logE (logE st1 .INFO
      ("Спроба перекладу через " ++ svc.name) (some svc.name)) .ERROR
      ("Помилка перекладу через " ++ svc.name) (some svc.name) with
        failedServices := setAdd (logE (logE st1 .INFO
          ("Спроба перекладу через " ++ svc.name) (some svc.name)) .ERROR
          ("Помилка перекладу через " ++ svc.name) (some svc.name)).failedServices
          svc.name }
      .WARN ("Ліміт сервісу " ++ svc.name ++ " перевищено") (some svc.name)
      with hMid
  have hA : svc.name ∈ stMid.failedServices := by
    rw [hMid]
    simpa using mem_setAdd_self _ svc.name
  have hB : (⟨.WARN, some svc.name,
      "Ліміт сервісу " ++ svc.name ++ " перевищено"⟩ : LogEntry)
      ∈ lastK 1 stMid.logs := by
    rw [hMid]
    simpa using mem_lastK_one_appendLog (appendLog (appendLog st1.logs
      ⟨.INFO, some svc.name, "Спроба перекладу через " ++ svc.name⟩)
      ⟨.ERROR, some svc.name, "Помилка перекладу через " ++ svc.name⟩)
      ⟨.WARN, some svc.name, "Ліміт сервісу " ++ svc.name ++ " перевищено"⟩
  rcases htry : tryServices text sl tl stMid post with ⟨stT, res⟩
  have hmemT : svc.name ∈ stT.failedServices := by
    have h5 := tryServices_failed_preserved text sl tl post stMid hA hpost
    rw [htry] at h5
    exact h5
  have hwT : (⟨.WARN, some svc.name,
      "Ліміт сервісу " ++ svc.name ++ " перевищено"⟩ : LogEntry)
      ∈ lastK (1 + 3 * post.length) stT.logs := by
    have h6 := tryServices_lastK text sl tl post stMid 1 hB
      (by unfold maxLogSize; omega)
    rw [htry] at h6
    simpa using h6
  have hexcl : ∀ stF : ServiceState, svc.name ∈ stF.failedServices →
      ∀ s ∈ availableServices stF, s.name ≠ svc.name := by
    intro stF hmem s hs heq
    obtain ⟨-, -, hnf⟩ := mem_availableServices.mp hs
    rw [heq] at hnf
    exact hnf hmem
  rcases res with - | r
  · refine ⟨hmemT, ?_, hexcl _ hmemT⟩
    simp only [useBackupTranslation_logs, logE_logs]
    refine mem_of_mem_lastK (mem_lastK_appendLog _ (mem_lastK_appendLog _ hwT
      (by unfold maxLogSize at *; omega)) (by unfold maxLogSize at *; omega))
  · exact ⟨hmemT, mem_of_mem_lastK hwT, hexcl _ hmemT⟩

theorem rateLimit_marks_and_excludes_witness :
    ((strIncludes "MyMemory failed: 429 - Rate limit exceeded" "429"
        || strIncludes "MyMemory failed: 429 - Rate limit exceeded" "limit") = true) ∧
    (svcRate.name ∈ (translateText rateDemoState "hi" "en" "uk").1.failedServices ∧
     (⟨.WARN, some svcRate.name,
        "Ліміт сервісу " ++ svcRate.name ++ " перевищено"⟩ : LogEntry)
        ∈ (translateText rateDemoState "hi" "en" "uk").1.logs ∧
     ∀ s ∈ availableServices (translateText rateDemoState "hi" "en" "uk").1,
       s.name ≠ svcRate.name) :=
  ⟨by decide,
   rateLimit_marks_and_excludes rateDemoState "hi" "en" "uk" [] svcRate
     [svcPlain] "MyMemory failed: 429 - Rate limit exceeded" rfl
     (by decide) (by decide) rfl
     (fun s hs => absurd hs (List.not_mem_nil s)) rfl (by decide)⟩

end TranslationService
